import Mathlib

/-!
Shallow embedding of the query-driven audio source separation pipeline of
this repository: query parsing (`parseQuery`), synonym matching
(`areSimilarSounds`), confidence scoring, the sound-profile catalogs
(`getTargetFrequencyRange`, `getSeparationParams`,
`getEnhancedSeparationParams`), the spectral separation engine
(`applyFrequencyBasedSeparation` with overlap-add reconstruction and peak
normalization, and the `applyFrequencyFilter` variant), and the linear-PCM
WAV encoder (`audioBufferToBlob`).

Embedding conventions:
* JavaScript numbers (IEEE doubles and Float32Array samples) are modelled
  as exact rationals; floating-point rounding is outside the model.
* JavaScript strings are modelled as `List Char`; `toLowerCase`, `trim`,
  `includes` and the separator regex of the source are implemented on
  ASCII characters below (the regex class of whitespace is modelled by the
  four ASCII whitespace characters that can occur in queries).
* The raised-cosine window of the source is transcendental, so the engine
  is parameterised by the window function `w : Nat -> Nat -> Rat`
  (arguments: sample index inside the frame, frame length); every theorem
  about the engine holds for an arbitrary window function.
* `Math.random()` is modelled as an explicit parameter `r` constrained by
  the contract of the JavaScript function, `0 ≤ r`.
-/

/-- JavaScript string literal as a list of characters. -/
def str (s : String) : List Char := s.data

/-- Whitespace test used for the regex escape of whitespace and for `trim`. -/
def isWsChar (c : Char) : Bool :=
  c == ' ' || c == '\t' || c == '\n' || c == '\r'

/-- ASCII `toLowerCase` of a single character, as in JavaScript for the
ASCII range used by the vocabulary and catalogs. -/
def lowerChar (c : Char) : Char :=
  if 65 ≤ c.toNat ∧ c.toNat ≤ 90 then Char.ofNat (c.toNat + 32) else c

/-- JavaScript `String.prototype.trim` (ASCII whitespace). -/
def trimWs (l : List Char) : List Char :=
  ((l.dropWhile isWsChar).reverse.dropWhile isWsChar).reverse

/-- Does `hay` start with `needle`? (helper for substring search). -/
def beginsWith : List Char → List Char → Bool
  | [], _ => true
  | _ :: _, [] => false
  | a :: as, b :: bs => a == b && beginsWith as bs

/-- JavaScript `String.prototype.includes`: `needle` occurs somewhere in
`hay` as a contiguous substring. -/
def containsSub (needle : List Char) : List Char → Bool
  | [] => beginsWith needle []
  | c :: rest => beginsWith needle (c :: rest) || containsSub needle rest

/-- Single-character separators of the source regex (comma or semicolon). -/
def sepChar (c : Char) : Bool := c == ',' || c == ';'

/-- Prepend a character to the first piece of a split result. -/
def consHead (c : Char) : List (List Char) → List (List Char)
  | [] => [[c]]
  | p :: ps => (c :: p) :: ps

/-- JavaScript `split` with the source regex (a comma or semicolon, or the
words and / or surrounded by whitespace): alternatives are tried in the
source order at each position, the matched separator is consumed, and
empty pieces are kept (the caller filters them out after trimming). -/
def splitSeps : List Char → List (List Char)
  | [] => [[]]
  | c :: a :: b :: d :: e :: r =>
    if sepChar c = true then [] :: splitSeps (a :: b :: d :: e :: r)
    else if isWsChar c = true ∧ a = 'a' ∧ b = 'n' ∧ d = 'd' ∧ isWsChar e = true then
      [] :: splitSeps r
    else if isWsChar c = true ∧ a = 'o' ∧ b = 'r' ∧ isWsChar d = true then
      [] :: splitSeps (e :: r)
    else consHead c (splitSeps (a :: b :: d :: e :: r))
  | c :: a :: b :: d :: r =>
    if sepChar c = true then [] :: splitSeps (a :: b :: d :: r)
    else if isWsChar c = true ∧ a = 'o' ∧ b = 'r' ∧ isWsChar d = true then
      [] :: splitSeps r
    else consHead c (splitSeps (a :: b :: d :: r))
  | c :: rest =>
    if sepChar c = true then [] :: splitSeps rest
    else consHead c (splitSeps rest)

/-- The fixed vocabulary of recognized sound keywords, in source order. -/
def soundKeywords : List (List Char) :=
  [str ("speech"), str ("voice"), str ("talking"), str ("speaking"), str ("conversation"),
   str ("music"), str ("song"), str ("melody"), str ("instrument"), str ("guitar"),
   str ("piano"), str ("drums"),
   str ("noise"), str ("background"), str ("ambient"),
   str ("clapping"), str ("applause"), str ("footsteps"), str ("walking"),
   str ("dog"), str ("barking"), str ("animal"), str ("bird"), str ("chirping"),
   str ("car"), str ("vehicle"), str ("engine"), str ("traffic"),
   str ("phone"), str ("ringing"), str ("notification"),
   str ("water"), str ("flowing"), str ("rain"), str ("wind"),
   str ("door"), str ("closing"), str ("opening"), str ("knock")]

/-- One step of the keyword scan: push the keyword if it occurs in the
sub-query and was not collected before. -/
def scanStep (q : List Char) (a : List (List Char)) (kw : List Char) : List (List Char) :=
  if containsSub kw q = true ∧ kw ∉ a then a ++ [kw] else a

/-- Body of the per-sub-query loop of the parser: scan the vocabulary,
then fall back to the literal sub-query text if nothing has been
collected so far (note: the emptiness test is on the global accumulator,
not on what this sub-query contributed). -/
def processSubQuery (acc : List (List Char)) (q : List Char) : List (List Char) :=
  let acc2 := soundKeywords.foldl (scanStep q) acc
  if acc2 = [] then acc2 ++ [q] else acc2

/-- Lowercased, trimmed query text. -/
def cleanOf (query : List Char) : List Char := trimWs (query.map lowerChar)

/-- The list of trimmed, non-empty sub-queries of the cleaned query. -/
def subQueriesOf (query : List Char) : List (List Char) :=
  ((splitSeps (cleanOf query)).map trimWs).filter (fun q => decide (0 < q.length))

/-- The query parser of the source: split, scan keywords per sub-query,
literal fallback, and a final fallback to the whole cleaned query. -/
def parseQuery (query : List Char) : List (List Char) :=
  let extractedSounds := (subQueriesOf query).foldl processSubQuery []
  if extractedSounds = [] then [cleanOf query] else extractedSounds

/-- The fixed synonym table of the source, in source order. -/
def synonymGroups : List (List Char × List (List Char)) :=
  [(str ("speech"), [str ("voice"), str ("talking"), str ("speaking"), str ("conversation")]),
   (str ("music"), [str ("song"), str ("melody"), str ("instrument")]),
   (str ("noise"), [str ("background"), str ("ambient")]),
   (str ("dog"), [str ("barking"), str ("animal")]),
   (str ("car"), [str ("vehicle"), str ("engine")]),
   (str ("water"), [str ("flowing"), str ("rain")])]

/-- Does a sound name mention a synonym group (its key or one of its
values occurs as a substring)? -/
def matchesGroup (g : List Char × List (List Char)) (s : List Char) : Bool :=
  containsSub g.1 s || g.2.any (fun v => containsSub v s)

/-- Synonym similarity of the source: some group is mentioned by both
sound names. -/
def areSimilarSounds (s1 s2 : List Char) : Bool :=
  synonymGroups.any (fun g => matchesGroup g s1 && matchesGroup g s2)

theorem scanStep_nodup {q : List Char} {a : List (List Char)} {kw : List Char}
    (h : a.Nodup) : (scanStep q a kw).Nodup := by
  unfold scanStep
  split
  · rename_i hc
    simp [List.nodup_append, h, hc.2]
  · exact h

theorem foldl_scanStep_nodup (q : List Char) :
    ∀ (kws : List (List Char)) (a : List (List Char)), a.Nodup →
      (kws.foldl (scanStep q) a).Nodup := by
  intro kws
  induction kws with
  | nil => intro a h; exact h
  | cons kw rest ih =>
    intro a h
    exact ih (scanStep q a kw) (scanStep_nodup h)

theorem processSubQuery_nodup {acc : List (List Char)} {q : List Char}
    (h : acc.Nodup) : (processSubQuery acc q).Nodup := by
  unfold processSubQuery
  dsimp only
  split
  · rename_i he
    simp [he]
  · exact foldl_scanStep_nodup q soundKeywords acc h

theorem foldl_processSubQuery_nodup :
    ∀ (qs : List (List Char)) (acc : List (List Char)), acc.Nodup →
      (qs.foldl processSubQuery acc).Nodup := by
  intro qs
  induction qs with
  | nil => intro acc h; exact h
  | cons q rest ih =>
    intro acc h
    exact ih (processSubQuery acc q) (processSubQuery_nodup h)

/-- Claim C5: for every query string that is non-empty after trimming, the
query parser returns a non-empty list of target terms with no duplicate
entries (the order is the collection order of the parser definition). -/
theorem claim5_parse_nonempty_nodup (query : List Char) (h : trimWs query ≠ []) :
    parseQuery query ≠ [] ∧ (parseQuery query).Nodup := by
  unfold parseQuery
  dsimp only
  constructor
  · split
    · simp
    · assumption
  · split
    · simp
    · exact foldl_processSubQuery_nodup (subQueriesOf query) [] (by simp)


/-- Witness for C5 at the concrete query "dog". -/
theorem claim5_witness :
    trimWs (str ("dog")) ≠ [] ∧
      (parseQuery (str ("dog")) ≠ [] ∧ (parseQuery (str ("dog"))).Nodup) :=
  ⟨by decide, claim5_parse_nonempty_nodup (str ("dog")) (by decide)⟩

/-- Claim C9: when the cleaned query splits into zero sub-queries (only
separators and whitespace), the parser neither fails nor returns an empty
list: it returns the one-element list holding the cleaned query itself. -/
theorem claim9_empty_split_fallback (query : List Char)
    (h : subQueriesOf query = []) : parseQuery query = [cleanOf query] := by
  unfold parseQuery
  rw [h]
  rfl

/-- Witness for C9 at the concrete query ",". -/
theorem claim9_witness :
    subQueriesOf (str (",")) = [] ∧ parseQuery (str (",")) = [cleanOf (str (","))] :=
  ⟨by decide, claim9_empty_split_fallback (str (",")) (by decide)⟩

theorem foldl_scanStep_id (q : List Char) :
    ∀ (kws : List (List Char)) (a : List (List Char)),
      (∀ kw ∈ kws, containsSub kw q = false) → kws.foldl (scanStep q) a = a := by
  intro kws
  induction kws with
  | nil => intro a _; rfl
  | cons kw rest ih =>
    intro a h
    have hkw : containsSub kw q = false := h kw (by simp)
    have hstep : scanStep q a kw = a := by
      unfold scanStep
      split
      · rename_i hc
        rw [hkw] at hc
        exact absurd hc.1 (by simp)
      · rfl
    rw [List.foldl_cons, hstep]
    exact ih a (fun k hk => h k (by simp [hk]))

/-- Claim C10: the literal-text fallback of the parser is global, not
per-sub-query: a keyword-free sub-query contributes nothing once the
accumulated term list is non-empty; in particular parsing "speech, zebra"
yields exactly the one term "speech", dropping "zebra". -/
theorem claim10_global_fallback :
    (∀ (acc : List (List Char)) (q : List Char), acc ≠ [] →
        (∀ kw ∈ soundKeywords, containsSub kw q = false) →
        processSubQuery acc q = acc) ∧
    parseQuery (str ("speech, zebra")) = [str ("speech")] := by
  constructor
  · intro acc q hacc hnone
    unfold processSubQuery
    rw [foldl_scanStep_id q soundKeywords acc hnone]
    simp [hacc]
  · decide

/-- Witness for C10: the keyword-free sub-query "zebra" is dropped when a
term was already collected. -/
theorem claim10_witness :
    processSubQuery [str ("speech")] (str ("zebra")) = [str ("speech")] :=
  claim10_global_fallback.1 [str ("speech")] (str ("zebra")) (by decide) (by decide)

theorem any_and_comm {α : Type} (m : α → List Char → Bool) (a b : List Char) :
    ∀ (l : List α),
      (l.any (fun g => m g a && m g b)) = (l.any (fun g => m g b && m g a)) := by
  intro l
  induction l with
  | nil => rfl
  | cons g rest ih =>
    simp only [List.any_cons, ih, Bool.and_comm]

/-- Claim C8: the synonym-similarity relation of the detected-sound
matcher is symmetric: swapping the two sound names never changes the
returned boolean. -/
theorem claim8_similar_symm (a b : List Char) :
    areSimilarSounds a b = areSimilarSounds b a := by
  unfold areSimilarSounds
  exact any_and_comm matchesGroup a b synonymGroups

/-- Substring match between a target and one detected sound, in either
direction, both lowercased (the test guarding the matching bonus of both
confidence scorers). -/
def matchedBoost (target : List Char) (matched : List (List Char)) : Bool :=
  matched.any (fun s =>
    containsSub (target.map lowerChar) (s.map lowerChar) ||
    containsSub (s.map lowerChar) (target.map lowerChar))

/-- The three targets the enhanced scorer treats as easier to separate. -/
def easyTargets : List (List Char) := [str ("speech"), str ("voice"), str ("music")]

/-- Enhanced confidence scorer of the source: base 0.4, +0.3 on a label
match, + quality × 0.4, +0.1 for the easy targets, capped at 0.95. -/
def calculateEnhancedConfidence (target : List Char) (matched : List (List Char))
    (separationQuality : ℚ) : ℚ :=
  let c1 : ℚ := 2/5
  let c2 : ℚ := if matchedBoost target matched = true then c1 + 3/10 else c1
  let c3 : ℚ := c2 + separationQuality * (2/5)
  let c4 : ℚ := if target ∈ easyTargets then c3 + 1/10 else c3
  min (19/20) c4

/-- Basic confidence scorer of the source: base 0.5, +0.3 on a label
match, +0.1 for a target longer than five characters, plus a random
offset in [0, 0.1), capped at 0.95 (`r` models `Math.random()`). -/
def calculateSeparationConfidence (target : List Char) (matched : List (List Char))
    (r : ℚ) : ℚ :=
  let c1 : ℚ := 1/2
  let c2 : ℚ := if matchedBoost target matched = true then c1 + 3/10 else c1
  let c3 : ℚ := if 5 < target.length then c2 + 1/10 else c2
  min (19/20) (c3 + r * (1/10))

/-- Claim C3: for every target term, every matched-label list (including
the empty list) and every nonnegative separation-quality scalar (and
nonnegative random offset in the basic variant), both confidence scorers
return a value in the closed interval from 0 to 0.95. -/
theorem claim3_confidence_bounded (target : List Char) (matched : List (List Char))
    (q r : ℚ) (hq : 0 ≤ q) (hr : 0 ≤ r) :
    (0 ≤ calculateEnhancedConfidence target matched q ∧
      calculateEnhancedConfidence target matched q ≤ 19/20) ∧
    (0 ≤ calculateSeparationConfidence target matched r ∧
      calculateSeparationConfidence target matched r ≤ 19/20) := by
  have hq4 : 0 ≤ q * (2/5 : ℚ) := by positivity
  have hr10 : 0 ≤ r * (1/10 : ℚ) := by positivity
  unfold calculateEnhancedConfidence calculateSeparationConfidence
  dsimp only
  constructor
  · constructor
    · apply le_min (by norm_num)
      split <;> split <;> linarith
    · exact min_le_left _ _
  · constructor
    · apply le_min (by norm_num)
      split <;> split <;> linarith
    · exact min_le_left _ _

/-- Witness for C3 at the empty-match, zero-quality, zero-offset case. -/
theorem claim3_witness :
    (0:ℚ) ≤ 0 ∧
      ((0 ≤ calculateEnhancedConfidence (str ("dog")) [] 0 ∧
        calculateEnhancedConfidence (str ("dog")) [] 0 ≤ 19/20) ∧
       (0 ≤ calculateSeparationConfidence (str ("dog")) [] 0 ∧
        calculateSeparationConfidence (str ("dog")) [] 0 ≤ 19/20)) :=
  ⟨le_refl 0, claim3_confidence_bounded (str ("dog")) [] 0 0 (le_refl 0) (le_refl 0)⟩

/-- Acoustic profile of the basic frequency catalog: range and a single
emphasis frequency. -/
structure FrequencyRange where
  low : ℚ
  high : ℚ
  emphasis : ℚ
deriving DecidableEq

/-- The frequency catalog of the source (`getTargetFrequencyRange`), in
source insertion order. -/
def frequencyMap : List (List Char × FrequencyRange) :=
  [(str ("speech"), ⟨85, 4000, 1000⟩),
   (str ("voice"), ⟨85, 4000, 1000⟩),
   (str ("talking"), ⟨85, 4000, 1000⟩),
   (str ("speaking"), ⟨85, 4000, 1000⟩),
   (str ("conversation"), ⟨85, 4000, 1000⟩),
   (str ("music"), ⟨20, 20000, 440⟩),
   (str ("song"), ⟨20, 20000, 440⟩),
   (str ("melody"), ⟨80, 8000, 440⟩),
   (str ("instrument"), ⟨20, 15000, 440⟩),
   (str ("guitar"), ⟨80, 5000, 330⟩),
   (str ("piano"), ⟨27, 4200, 523⟩),
   (str ("drums"), ⟨20, 15000, 100⟩),
   (str ("clapping"), ⟨1000, 8000, 2000⟩),
   (str ("applause"), ⟨1000, 8000, 2000⟩),
   (str ("footsteps"), ⟨20, 2000, 200⟩),
   (str ("walking"), ⟨20, 2000, 200⟩),
   (str ("dog"), ⟨200, 8000, 500⟩),
   (str ("barking"), ⟨200, 8000, 500⟩),
   (str ("animal"), ⟨100, 8000, 500⟩),
   (str ("bird"), ⟨1000, 10000, 3000⟩),
   (str ("chirping"), ⟨1000, 10000, 3000⟩),
   (str ("car"), ⟨20, 2000, 80⟩),
   (str ("vehicle"), ⟨20, 2000, 80⟩),
   (str ("engine"), ⟨20, 2000, 80⟩),
   (str ("traffic"), ⟨20, 2000, 200⟩),
   (str ("noise"), ⟨20, 20000, 1000⟩),
   (str ("background"), ⟨20, 1000, 200⟩),
   (str ("ambient"), ⟨20, 1000, 200⟩),
   (str ("water"), ⟨100, 8000, 1000⟩),
   (str ("flowing"), ⟨100, 8000, 1000⟩),
   (str ("rain"), ⟨500, 15000, 2000⟩),
   (str ("wind"), ⟨20, 2000, 100⟩),
   (str ("door"), ⟨100, 4000, 500⟩),
   (str ("phone"), ⟨300, 3400, 1000⟩),
   (str ("ringing"), ⟨300, 4000, 1000⟩)]

/-- Catalog lookup of the source: first key that occurs as a substring of
the lowercased target wins; otherwise the default profile. -/
def getTargetFrequencyRange (target : List Char) : FrequencyRange :=
  match frequencyMap.find? (fun e => containsSub e.1 (target.map lowerChar)) with
  | some e => e.2
  | none => ⟨100, 8000, 1000⟩

/-- Separation parameters of the basic engine catalog
(`getSeparationParams`): range, emphasis list, gain and algorithm tag. -/
structure SeparationParams where
  low : ℚ
  high : ℚ
  emphasis : List ℚ
  gain : ℚ
  type : List Char
deriving DecidableEq

/-- The parameter catalog of `getSeparationParams`, in source insertion
order (the nested freqRange object is flattened into low / high). -/
def paramMap : List (List Char × SeparationParams) :=
  [(str ("speech"), ⟨85, 4000, [300, 1000, 2000], 4, str ("harmonic")⟩),
   (str ("voice"), ⟨85, 4000, [300, 1000, 2000], 4, str ("harmonic")⟩),
   (str ("music"), ⟨20, 20000, [440, 880, 1760], 3, str ("harmonic")⟩),
   (str ("dog"), ⟨200, 3000, [500, 1000, 1500], 5, str ("burst")⟩),
   (str ("barking"), ⟨200, 3000, [500, 1000, 1500], 5, str ("burst")⟩),
   (str ("bird"), ⟨1000, 8000, [2000, 4000, 6000], 6, str ("tonal")⟩),
   (str ("chirping"), ⟨1000, 8000, [2000, 4000, 6000], 6, str ("tonal")⟩),
   (str ("car"), ⟨20, 600, [50, 100, 200], 9/2, str ("noise")⟩),
   (str ("engine"), ⟨20, 600, [50, 100, 200], 9/2, str ("noise")⟩),
   (str ("water"), ⟨100, 15000, [1000, 4000, 8000], 7/2, str ("noise")⟩),
   (str ("wind"), ⟨20, 2000, [50, 200, 1000], 3, str ("noise")⟩)]

/-- Parameter lookup of the basic engine: first matching key, else the
default parameters with moderate amplification. -/
def getSeparationParams (target : List Char) : SeparationParams :=
  match paramMap.find? (fun e => containsSub e.1 (target.map lowerChar)) with
  | some e => e.2
  | none => ⟨100, 8000, [1000], 3, str ("general")⟩

/-- Parameters of the enhanced catalog (`getEnhancedSeparationParams`):
algorithm tag, range and emphasis list.  The per-entry descriptor fields
of the source that no verified claim consumes (harmonicRatio,
adaptiveGain, noiseProfile, and similar flags) are omitted. -/
structure EnhancedParams where
  type : List Char
  low : ℚ
  high : ℚ
  emphasis : List ℚ
deriving DecidableEq

/-- The parameter catalog of `getEnhancedSeparationParams`, in source
insertion order. -/
def enhancedParamMap : List (List Char × EnhancedParams) :=
  [(str ("speech"), ⟨str ("harmonic"), 85, 4000, [300, 1000, 2000]⟩),
   (str ("voice"), ⟨str ("harmonic"), 85, 4000, [300, 1000, 2000]⟩),
   (str ("music"), ⟨str ("harmonic"), 20, 20000, [440, 880, 1760]⟩),
   (str ("drums"), ⟨str ("spectral"), 20, 8000, [60, 200, 2000]⟩),
   (str ("car"), ⟨str ("spectral"), 20, 500, [50, 100, 200]⟩),
   (str ("engine"), ⟨str ("spectral"), 20, 500, [50, 100, 200]⟩),
   (str ("bird"), ⟨str ("spectral"), 1000, 8000, [2000, 4000, 6000]⟩),
   (str ("dog"), ⟨str ("spectral"), 200, 3000, [500, 1000, 1500]⟩),
   (str ("water"), ⟨str ("spectral"), 100, 15000, [1000, 4000, 8000]⟩),
   (str ("wind"), ⟨str ("spectral"), 20, 2000, [50, 200, 1000]⟩)]

/-- Parameter lookup of the enhanced engine: first matching key, else the
default spectral parameters. -/
def getEnhancedSeparationParams (target : List Char) : EnhancedParams :=
  match enhancedParamMap.find? (fun e => containsSub e.1 (target.map lowerChar)) with
  | some e => e.2
  | none => ⟨str ("spectral"), 100, 8000, [1000]⟩

/-- Counterexample for C6: the target "xyz" matches no catalog key, yet
the basic parameter lookup's default profile carries the algorithm tag
"general", not "spectral" as the claim states. -/
theorem claim6_counterexample :
    (∀ e ∈ paramMap, containsSub e.1 (str ("xyz")) = false) ∧
    (getSeparationParams (str ("xyz"))).type = str ("general") ∧
    (getSeparationParams (str ("xyz"))).type ≠ str ("spectral") := by
  refine ⟨by decide, by decide, by decide⟩

/-- Claim C6 (amended): for a target term containing no catalog key as a
case-insensitive substring, each lookup returns its default profile:
frequency range 100 to 8000 Hz with single emphasis 1000 Hz in all three
catalogs; the enhanced lookup's algorithm is "spectral", while the basic
lookup's algorithm tag is "general" with gain 3 (inside the claimed 2.0
to 3.0 range). -/
theorem claim6_default_profiles (target : List Char)
    (h1 : ∀ e ∈ frequencyMap, containsSub e.1 (target.map lowerChar) = false)
    (h2 : ∀ e ∈ paramMap, containsSub e.1 (target.map lowerChar) = false)
    (h3 : ∀ e ∈ enhancedParamMap, containsSub e.1 (target.map lowerChar) = false) :
    getTargetFrequencyRange target = ⟨100, 8000, 1000⟩ ∧
    getSeparationParams target = ⟨100, 8000, [1000], 3, str ("general")⟩ ∧
    getEnhancedSeparationParams target = ⟨str ("spectral"), 100, 8000, [1000]⟩ := by
  have f1 : frequencyMap.find? (fun e => containsSub e.1 (target.map lowerChar)) = none := by
    rw [List.find?_eq_none]
    intro e he
    simp [h1 e he]
  have f2 : paramMap.find? (fun e => containsSub e.1 (target.map lowerChar)) = none := by
    rw [List.find?_eq_none]
    intro e he
    simp [h2 e he]
  have f3 : enhancedParamMap.find? (fun e => containsSub e.1 (target.map lowerChar)) = none := by
    rw [List.find?_eq_none]
    intro e he
    simp [h3 e he]
  refine ⟨?_, ?_, ?_⟩
  · unfold getTargetFrequencyRange
    rw [f1]
  · unfold getSeparationParams
    rw [f2]
  · unfold getEnhancedSeparationParams
    rw [f3]

/-- Witness for C6 at the concrete target "xyz". -/
theorem claim6_witness :
    getTargetFrequencyRange (str ("xyz")) = ⟨100, 8000, 1000⟩ ∧
    getSeparationParams (str ("xyz")) = ⟨100, 8000, [1000], 3, str ("general")⟩ ∧
    getEnhancedSeparationParams (str ("xyz")) = ⟨str ("spectral"), 100, 8000, [1000]⟩ :=
  claim6_default_profiles (str ("xyz")) (by decide) (by decide) (by decide)

/-- Frame length of the engine (2048 samples). -/
def fftSize : ℕ := 2048

/-- Hop length of the engine, a quarter of the frame length. -/
def hopSize : ℕ := 512

/-- Index-aware map modelling the per-sample loops over a frame
(arguments: running index, then the remaining samples). -/
def mapWithIdx (f : ℕ → ℚ → ℚ) : ℕ → List ℚ → List ℚ
  | _, [] => []
  | j, v :: rest => f j v :: mapWithIdx f (j + 1) rest

/-- The frame slice `inputData.slice(i, min(i + fftSize, inputData.length))`. -/
def segmentAt (input : List ℚ) (i : ℕ) : List ℚ := (input.drop i).take fftSize

/-- Windowing loop of the engine: every sample of the frame is multiplied
by the window value at its index (the raised-cosine window of the source
is one instance of the parameter `w`). -/
def windowedSegment (w : ℕ → ℕ → ℚ) (seg : List ℚ) : List ℚ :=
  mapWithIdx (fun j v => v * w j seg.length) 0 seg

/-- The bin-frequency estimate `(j / segmentLength) * (sampleRate / 2)`. -/
def binFrequency (sr : ℚ) (segLen j : ℕ) : ℚ :=
  ((j : ℚ) / (segLen : ℚ)) * (sr / 2)

/-- Emphasis boost loop of `applyFrequencyBasedSeparation`: the gain is
multiplied once per emphasis frequency closer than 100 Hz to the bin. -/
def emphasisGain (emphasis : List ℚ) (frequency g : ℚ) : ℚ :=
  emphasis.foldl
    (fun gain emphFreq =>
      if |frequency - emphFreq| < 100 then
        gain * (1 + (100 - |frequency - emphFreq|) / 100 * (3/2))
      else gain) g

/-- Mask factor of `applyFrequencyBasedSeparation` for one bin: bins in
the target range get the emphasis-boosted gain capped at 8, bins outside
it are attenuated by 0.1. -/
def sepMaskFactor (params : SeparationParams) (sr : ℚ) (segLen j : ℕ) : ℚ :=
  let frequency := binFrequency sr segLen j
  if params.low ≤ frequency ∧ frequency ≤ params.high then
    min 8 (emphasisGain params.emphasis frequency params.gain)
  else 1/10

/-- One processed frame of `applyFrequencyBasedSeparation`: slice, window,
then scale every bin by its mask factor. -/
def processedFrame (w : ℕ → ℕ → ℚ) (params : SeparationParams) (sr : ℚ)
    (input : List ℚ) (i : ℕ) : List ℚ :=
  mapWithIdx (fun j v => v * sepMaskFactor params sr (segmentAt input i).length j) 0
    (windowedSegment w (segmentAt input i))

/-- Read-modify-write `out[p] += v` of the overlap-add loop; out-of-range
positions are left unchanged, as in the guarded source loop. -/
def addAt (out : List ℚ) (p : ℕ) (v : ℚ) : List ℚ := out.set p (out.getD p 0 + v)

/-- The overlap-add writeback loop of `applyFrequencyBasedSeparation`:
`outputData[i + j] += windowed[j] * 0.5`. -/
def addScaledFrame : List ℚ → ℕ → List ℚ → List ℚ
  | out, _, [] => out
  | out, p, v :: rest => addScaledFrame (addAt out p (v * (1/2))) (p + 1) rest

/-- The overwriting writeback loop of `applyFrequencyFilter` (and of the
harmonic and spectral variants): `outputData[i + j] = processed[j]`. -/
def writeFrame : List ℚ → ℕ → List ℚ → List ℚ
  | out, _, [] => out
  | out, p, v :: rest => writeFrame (out.set p v) (p + 1) rest

/-- The frame start offsets of the processing loop
`for (i = 0; i < inputLength; i += hopSize)`. -/
def frameStarts (inLen : ℕ) : List ℕ :=
  (List.range ((inLen + hopSize - 1) / hopSize)).map (fun k => k * hopSize)

/-- Accumulation phase of `applyFrequencyBasedSeparation`: every processed
frame is overlap-added (scaled by 0.5) into a fresh zero output buffer of
the allocated output length. -/
def overlapPhase (w : ℕ → ℕ → ℚ) (params : SeparationParams) (sr : ℚ)
    (input : List ℚ) (outLen : ℕ) : List ℚ :=
  (frameStarts input.length).foldl
    (fun out i => addScaledFrame out i (processedFrame w params sr input i))
    (List.replicate outLen 0)

/-- Peak scan of the conditioning stage: running maximum of the absolute
sample values, starting from 0. -/
def maxAbs (l : List ℚ) : ℚ := l.foldl (fun m x => max m |x|) 0

/-- Peak-normalization stage that runs after the overlap-add loop: if the
buffer has a positive peak, scale every sample by `0.8 / peak` so the
maximum absolute sample lands at 80 percent of full scale. -/
def normalizeToPeak (out : List ℚ) : List ℚ :=
  if 0 < maxAbs out then out.map (fun x => x * ((4/5) / maxAbs out)) else out

/-- The full channel engine of `performAudioSeparation`: overlap-add
accumulation followed by peak normalization. -/
def applyFrequencyBasedSeparation (w : ℕ → ℕ → ℚ) (params : SeparationParams)
    (sr : ℚ) (input : List ℚ) (outLen : ℕ) : List ℚ :=
  normalizeToPeak (overlapPhase w params sr input outLen)

/-- Filter response of `applyFrequencyFilter` for one bin: linear falloff
from the emphasis frequency inside the range (floored at 0.1), constant
0.1 outside. -/
def filterResponse (fr : FrequencyRange) (sr : ℚ) (segLen j : ℕ) : ℚ :=
  let frequency := binFrequency sr segLen j
  if fr.low ≤ frequency ∧ frequency ≤ fr.high then
    max (1/10)
      (1 - |frequency - fr.emphasis| / max (fr.emphasis - fr.low) (fr.high - fr.emphasis))
  else 1/10

/-- One processed frame of `applyFrequencyFilter`: slice, window, then
scale every bin by the filter response. -/
def filteredSegment (w : ℕ → ℕ → ℚ) (fr : FrequencyRange) (sr : ℚ)
    (input : List ℚ) (i : ℕ) : List ℚ :=
  mapWithIdx (fun j v => v * filterResponse fr sr (segmentAt input i).length j) 0
    (windowedSegment w (segmentAt input i))

/-- The channel filter of `extractAudioByFrequency`: each processed frame
is written (overwriting, unscaled) into the output buffer. -/
def applyFrequencyFilter (w : ℕ → ℕ → ℚ) (fr : FrequencyRange) (sr : ℚ)
    (input : List ℚ) (outLen : ℕ) : List ℚ :=
  (frameStarts input.length).foldl
    (fun out i => writeFrame out i (filteredSegment w fr sr input i))
    (List.replicate outLen 0)

/-- Modelled from the spec sentence on overlap-add reconstruction: the
output sample at position `p` is the sum, over all frames of the hop
loop, of the 0.5-scaled processed-frame value covering `p`. -/
def overlapAddSum (frame : ℕ → List ℚ) (inLen p : ℕ) : ℚ :=
  ((frameStarts inLen).map
    (fun i => if i ≤ p then (frame i).getD (p - i) 0 * (1/2) else 0)).sum

/-- Multichannel signal: sample rate, allocated per-channel length, and
the channel sample buffers (the `AudioBuffer` invariant of the platform is
that every channel buffer has the allocated length). -/
structure AudioBuffer where
  sampleRate : ℕ
  length : ℕ
  channels : List (List ℚ)

/-- `performAudioSeparation` of the source: allocate an output signal of
the same shape and run the channel engine on every channel (the encoding
of the result to a blob URL is modelled separately by the codec). -/
def performAudioSeparation (w : ℕ → ℕ → ℚ) (target : List Char)
    (buf : AudioBuffer) : AudioBuffer :=
  let params := getSeparationParams target
  { sampleRate := buf.sampleRate, length := buf.length,
    channels := buf.channels.map
      (fun ch => applyFrequencyBasedSeparation w params (buf.sampleRate : ℚ) ch buf.length) }

/-- `extractAudioByFrequency` of the source: allocate an output signal of
the same shape and run the frequency filter on every channel. -/
def extractAudioByFrequency (w : ℕ → ℕ → ℚ) (target : List Char)
    (buf : AudioBuffer) : AudioBuffer :=
  let fr := getTargetFrequencyRange target
  { sampleRate := buf.sampleRate, length := buf.length,
    channels := buf.channels.map
      (fun ch => applyFrequencyFilter w fr (buf.sampleRate : ℚ) ch buf.length) }

/-- Shared concrete window instance used by the witnesses (the theorems
hold for every window function). -/
def exampleWindow : ℕ → ℕ → ℚ := fun _ _ => 1

theorem addAt_length (out : List ℚ) (p : ℕ) (v : ℚ) :
    (addAt out p v).length = out.length := by
  unfold addAt
  exact List.length_set out p _

theorem addAt_getD (out : List ℚ) (p : ℕ) (v : ℚ) (q : ℕ) :
    (addAt out p v).getD q 0 =
      out.getD q 0 + (if q = p ∧ q < out.length then v else 0) := by
  induction out generalizing p q with
  | nil =>
    simp [addAt]
  | cons x xs ih =>
    cases p with
    | zero =>
      cases q with
      | zero => simp [addAt]
      | succ q => simp [addAt]
    | succ p =>
      cases q with
      | zero => simp [addAt]
      | succ q =>
        have hstep : addAt (x :: xs) (p + 1) v = x :: addAt xs p v := by
          simp [addAt]
        rw [hstep, List.getD_cons_succ, ih p q]
        by_cases hqp : q = p
        · by_cases hql : q < xs.length
          · simp [hqp, hql]
          · simp [hqp, hql]
        · simp [hqp]

theorem addScaledFrame_length (f : List ℚ) :
    ∀ (out : List ℚ) (p : ℕ), (addScaledFrame out p f).length = out.length := by
  induction f with
  | nil => intro out p; rfl
  | cons v rest ih =>
    intro out p
    show (addScaledFrame (addAt out p (v * (1/2))) (p + 1) rest).length = out.length
    rw [ih, addAt_length]

theorem writeFrame_length (f : List ℚ) :
    ∀ (out : List ℚ) (p : ℕ), (writeFrame out p f).length = out.length := by
  induction f with
  | nil => intro out p; rfl
  | cons v rest ih =>
    intro out p
    show (writeFrame (out.set p v) (p + 1) rest).length = out.length
    rw [ih, List.length_set]

theorem addScaledFrame_getD (f : List ℚ) :
    ∀ (out : List ℚ) (s p : ℕ),
      (addScaledFrame out s f).getD p 0 =
        out.getD p 0 +
          (if s ≤ p ∧ p < s + f.length ∧ p < out.length then
            f.getD (p - s) 0 * (1/2) else 0) := by
  induction f with
  | nil =>
    intro out s p
    have hno : ¬(s ≤ p ∧ p < s + (0:ℕ) ∧ p < out.length) := by omega
    simp only [addScaledFrame, List.length_nil, hno, if_false]
    ring
  | cons v rest ih =>
    intro out s p
    show (addScaledFrame (addAt out s (v * (1/2))) (s + 1) rest).getD p 0 = _
    rw [ih, addAt_getD, addAt_length]
    by_cases hsp : s = p
    · subst hsp
      by_cases hl : s < out.length
      · have h1 : ¬(s + 1 ≤ s) := by omega
        have h2 : s ≤ s ∧ s < s + (rest.length + 1) ∧ s < out.length := by
          refine ⟨le_refl s, by omega, hl⟩
        simp [h1, h2, hl]
      · have h1 : ¬(s + 1 ≤ s) := by omega
        have h2 : ¬(s ≤ s ∧ s < s + (rest.length + 1) ∧ s < out.length) := by
          intro hc
          exact hl hc.2.2
        simp [h1, h2, hl]
    · by_cases hle : s + 1 ≤ p
      · have hps : p ≠ s := fun hc => hsp hc.symm
        have hsub : p - s = (p - (s + 1)) + 1 := by omega
        have hcond : (s + 1 ≤ p ∧ p < s + 1 + rest.length ∧ p < out.length) ↔
            (s ≤ p ∧ p < s + (rest.length + 1) ∧ p < out.length) := by
          constructor
          · intro hc; exact ⟨by omega, by omega, hc.2.2⟩
          · intro hc; exact ⟨by omega, by omega, hc.2.2⟩
        rw [hsub]
        simp only [List.getD_cons_succ, List.length_cons]
        by_cases hc : s + 1 ≤ p ∧ p < s + 1 + rest.length ∧ p < out.length
        · simp [hc, hcond.mp hc, hps]
        · have hc2 : ¬(s ≤ p ∧ p < s + (rest.length + 1) ∧ p < out.length) := by
            intro hcc
            exact hc ⟨by omega, by omega, hcc.2.2⟩
          simp [hc, hc2, hps]
      · have hps : p ≠ s := fun hc => hsp hc.symm
        have h1 : ¬(s + 1 ≤ p) := hle
        have h2 : ¬(s ≤ p ∧ p < s + (rest.length + 1) ∧ p < out.length) := by
          intro hc
          omega
        simp [h1, h2, hps]

theorem foldl_preserves_length {α : Type} (step : List ℚ → α → List ℚ)
    (hstep : ∀ out a, (step out a).length = out.length) :
    ∀ (l : List α) (out : List ℚ), (l.foldl step out).length = out.length := by
  intro l
  induction l with
  | nil => intro out; rfl
  | cons a rest ih =>
    intro out
    rw [List.foldl_cons, ih, hstep]

theorem getD_replicate_zero (n : ℕ) : ∀ (p : ℕ), (List.replicate n (0:ℚ)).getD p 0 = 0 := by
  induction n with
  | zero => intro p; simp
  | succ n ih =>
    intro p
    cases p with
    | zero => simp [List.replicate]
    | succ p => simp [List.replicate, ih]

theorem overlapPhase_length (w : ℕ → ℕ → ℚ) (params : SeparationParams) (sr : ℚ)
    (input : List ℚ) (outLen : ℕ) :
    (overlapPhase w params sr input outLen).length = outLen := by
  unfold overlapPhase
  rw [foldl_preserves_length _ (fun out i => addScaledFrame_length _ out i)]
  exact List.length_replicate outLen 0

theorem applyFrequencyFilter_length (w : ℕ → ℕ → ℚ) (fr : FrequencyRange) (sr : ℚ)
    (input : List ℚ) (outLen : ℕ) :
    (applyFrequencyFilter w fr sr input outLen).length = outLen := by
  unfold applyFrequencyFilter
  rw [foldl_preserves_length _ (fun out i => writeFrame_length _ out i)]
  exact List.length_replicate outLen 0

theorem le_foldl_maxAbs (l : List ℚ) :
    ∀ (a : ℚ), a ≤ l.foldl (fun m x => max m |x|) a := by
  induction l with
  | nil => intro a; exact le_refl a
  | cons x rest ih =>
    intro a
    calc a ≤ max a |x| := le_max_left a |x|
    _ ≤ rest.foldl (fun m x => max m |x|) (max a |x|) := ih (max a |x|)

theorem maxAbs_nonneg (l : List ℚ) : 0 ≤ maxAbs l := le_foldl_maxAbs l 0

theorem mem_abs_le_foldl (l : List ℚ) :
    ∀ (a : ℚ) (x : ℚ), x ∈ l → |x| ≤ l.foldl (fun m x => max m |x|) a := by
  induction l with
  | nil => intro a x hx; exact absurd hx (List.not_mem_nil x)
  | cons y rest ih =>
    intro a x hx
    rcases List.mem_cons.mp hx with h | h
    · subst h
      calc |x| ≤ max a |x| := le_max_right a |x|
      _ ≤ rest.foldl (fun m x => max m |x|) (max a |x|) := le_foldl_maxAbs rest _
    · exact ih (max a |y|) x h

theorem mem_abs_le_maxAbs {l : List ℚ} {x : ℚ} (hx : x ∈ l) : |x| ≤ maxAbs l :=
  mem_abs_le_foldl l 0 x hx

theorem foldl_maxAbs_map_mul (k : ℚ) (l : List ℚ) :
    ∀ (a : ℚ), (l.map (fun x => x * k)).foldl (fun m x => max m |x|) (|k| * a) =
      |k| * l.foldl (fun m x => max m |x|) a := by
  induction l with
  | nil => intro a; rfl
  | cons x rest ih =>
    intro a
    have habs : |x * k| = |k| * |x| := by rw [abs_mul]; ring
    have hmax : max (|k| * a) (|k| * |x|) = |k| * max a |x| :=
      (mul_max_of_nonneg a |x| (abs_nonneg k)).symm
    simp only [List.map_cons, List.foldl_cons, habs, hmax, ih]

theorem maxAbs_map_mul (k : ℚ) (l : List ℚ) :
    maxAbs (l.map (fun x => x * k)) = |k| * maxAbs l := by
  unfold maxAbs
  have h := foldl_maxAbs_map_mul k l 0
  rw [show |k| * (0:ℚ) = 0 from by ring] at h
  exact h

/-- Claim C1: the signal-conditioning stage (peak normalization) that runs
after the frequency-based separation bounds every output sample by 1 in
absolute value, for every input channel buffer, every window and every
parameter set; and whenever the accumulated buffer has a positive peak,
normalization places the maximum absolute sample exactly at 0.8 of full
scale. -/
theorem claim1_signal_conditioner_bounded :
    (∀ (w : ℕ → ℕ → ℚ) (params : SeparationParams) (sr : ℚ) (input : List ℚ)
        (outLen : ℕ) (x : ℚ),
      x ∈ applyFrequencyBasedSeparation w params sr input outLen → |x| ≤ 1) ∧
    (∀ (buffer : List ℚ), 0 < maxAbs buffer → maxAbs (normalizeToPeak buffer) = 4/5) := by
  constructor
  · intro w params sr input outLen x hx
    unfold applyFrequencyBasedSeparation normalizeToPeak at hx
    set raw := overlapPhase w params sr input outLen with hraw
    by_cases hm : 0 < maxAbs raw
    · rw [if_pos hm] at hx
      rcases List.mem_map.mp hx with ⟨y, hy, hxy⟩
      subst hxy
      have hyle : |y| ≤ maxAbs raw := mem_abs_le_maxAbs hy
      have hk : |(4/5 : ℚ) / maxAbs raw| = (4/5) / maxAbs raw := by
        apply abs_of_pos
        positivity
      calc |y * ((4/5) / maxAbs raw)| = |y| * ((4/5) / maxAbs raw) := by
            rw [abs_mul, hk]
      _ ≤ maxAbs raw * ((4/5) / maxAbs raw) := by
            apply mul_le_mul_of_nonneg_right hyle
            positivity
      _ = 4/5 := by
            field_simp
            ring
      _ ≤ 1 := by norm_num
    · rw [if_neg hm] at hx
      have h0 : maxAbs raw = 0 :=
        le_antisymm (not_lt.mp hm) (maxAbs_nonneg raw)
      have : |x| ≤ maxAbs raw := mem_abs_le_maxAbs hx
      rw [h0] at this
      linarith
  · intro buffer hpos
    unfold normalizeToPeak
    rw [if_pos hpos, maxAbs_map_mul]
    have hk : |(4/5 : ℚ) / maxAbs buffer| = (4/5) / maxAbs buffer := by
      apply abs_of_pos
      positivity
    rw [hk]
    field_simp
    ring

/-- Witness for C1: a concrete run of the engine on the one-sample buffer
with value 1 and a concrete positive-peak buffer. -/
theorem claim1_witness :
    |(applyFrequencyBasedSeparation exampleWindow (getSeparationParams (str ("xyz")))
        2 [1] 1).getD 0 0| ≤ 1 ∧
    maxAbs (normalizeToPeak [2]) = 4/5 :=
  ⟨claim1_signal_conditioner_bounded.1 exampleWindow (getSeparationParams (str ("xyz")))
      2 [1] 1 _ (by with_unfolding_all decide),
   claim1_signal_conditioner_bounded.2 [2] (by with_unfolding_all decide)⟩

theorem foldl_addScaledFrame_getD (frame : ℕ → List ℚ) :
    ∀ (starts : List ℕ) (out : List ℚ) (p : ℕ), p < out.length →
      ((starts.foldl (fun o i => addScaledFrame o i (frame i)) out).getD p 0) =
        out.getD p 0 +
          ((starts.map (fun i =>
            if i ≤ p then (frame i).getD (p - i) 0 * (1/2) else 0)).sum) := by
  intro starts
  induction starts with
  | nil =>
    intro out p _
    simp
  | cons i rest ih =>
    intro out p hp
    rw [List.foldl_cons]
    have hlen : p < (addScaledFrame out i (frame i)).length := by
      rw [addScaledFrame_length]
      exact hp
    rw [ih (addScaledFrame out i (frame i)) p hlen, addScaledFrame_getD]
    have hbridge :
        (if i ≤ p ∧ p < i + (frame i).length ∧ p < out.length then
          (frame i).getD (p - i) 0 * (1/2) else 0) =
        (if i ≤ p then (frame i).getD (p - i) 0 * (1/2) else 0) := by
      by_cases hip : i ≤ p
      · by_cases hcover : p < i + (frame i).length
        · simp [hip, hcover, hp]
        · have hd : (frame i).getD (p - i) 0 = 0 := by
            apply List.getD_eq_default
            omega
          rw [if_neg (show ¬(i ≤ p ∧ p < i + (frame i).length ∧ p < out.length) from by omega),
            if_pos hip, hd]
          norm_num
      · simp [hip]
    rw [hbridge, List.map_cons, List.sum_cons]
    ring

/-- Claim C7 (amended): in `applyFrequencyBasedSeparation`, the output of
the accumulation phase (before peak normalization) at every position is
the sum of the 0.5-scaled processed, windowed, masked frame values of all
frames covering that position at their hop offsets — true overlap-add.
(The `applyFrequencyFilter` and harmonic variants instead overwrite, see
the counterexample.) -/
theorem claim7_overlap_add (w : ℕ → ℕ → ℚ) (params : SeparationParams) (sr : ℚ)
    (input : List ℚ) (outLen p : ℕ) (hp : p < outLen) :
    (overlapPhase w params sr input outLen).getD p 0 =
      overlapAddSum (processedFrame w params sr input) input.length p := by
  unfold overlapPhase overlapAddSum
  have hlen : p < (List.replicate outLen (0:ℚ)).length := by
    rw [List.length_replicate]
    exact hp
  rw [foldl_addScaledFrame_getD _ _ _ _ hlen, getD_replicate_zero]
  ring

/-- Witness for C7 at a concrete one-sample input. -/
theorem claim7_witness :
    (overlapPhase exampleWindow (getSeparationParams (str ("xyz"))) 2 [1] 1).getD 0 0 =
      overlapAddSum
        (processedFrame exampleWindow (getSeparationParams (str ("xyz"))) 2 [1]) 1 0 :=
  claim7_overlap_add exampleWindow (getSeparationParams (str ("xyz"))) 2 [1] 1 0
    (by decide)

/-- Counterexample for C7: the `applyFrequencyFilter` variant cited by the
claim overwrites frame values into the output unscaled, so on the
one-sample input buffer [1] its output sample is 0.1 while the claimed
0.5-scaled overlap-add reconstruction yields 0.05. -/
theorem claim7_counterexample :
    (applyFrequencyFilter exampleWindow ⟨100, 8000, 1000⟩ 2 [1] 1).getD 0 0 = 1/10 ∧
    overlapAddSum (filteredSegment exampleWindow ⟨100, 8000, 1000⟩ 2 [1]) 1 0 = 1/20 := by
  with_unfolding_all decide

/-- Claim C2: the separation engine's output signal has the same number of
channels as the input, and for every channel the output buffer length
equals the input channel buffer's length (for well-formed signals whose
channels all have the allocated length), in both the
`performAudioSeparation` engine and the `extractAudioByFrequency`
variant. -/
theorem claim2_shape_preserved (w : ℕ → ℕ → ℚ) (target : List Char)
    (buf : AudioBuffer) (h : ∀ c ∈ buf.channels, c.length = buf.length) :
    ((performAudioSeparation w target buf).channels.length = buf.channels.length ∧
      List.Forall₂ (fun o c => o.length = c.length)
        (performAudioSeparation w target buf).channels buf.channels) ∧
    ((extractAudioByFrequency w target buf).channels.length = buf.channels.length ∧
      List.Forall₂ (fun o c => o.length = c.length)
        (extractAudioByFrequency w target buf).channels buf.channels) := by
  constructor
  · constructor
    · simp [performAudioSeparation]
    · unfold performAudioSeparation
      dsimp only
      rw [List.forall₂_map_left_iff]
      rw [List.forall₂_same]
      intro c hc
      have : (applyFrequencyBasedSeparation w (getSeparationParams target)
          (buf.sampleRate : ℚ) c buf.length).length = buf.length := by
        unfold applyFrequencyBasedSeparation normalizeToPeak
        split
        · rw [List.length_map]
          exact overlapPhase_length _ _ _ _ _
        · exact overlapPhase_length _ _ _ _ _
      rw [this, h c hc]
  · constructor
    · simp [extractAudioByFrequency]
    · unfold extractAudioByFrequency
      dsimp only
      rw [List.forall₂_map_left_iff]
      rw [List.forall₂_same]
      intro c hc
      rw [applyFrequencyFilter_length, h c hc]

/-- Witness for C2 at a concrete one-channel, one-sample signal. -/
theorem claim2_witness :
    (∀ c ∈ (AudioBuffer.mk 2 1 [[1]]).channels, c.length = (AudioBuffer.mk 2 1 [[1]]).length) ∧
    ((performAudioSeparation exampleWindow (str ("dog")) (AudioBuffer.mk 2 1 [[1]])).channels.length =
        (AudioBuffer.mk 2 1 [[1]]).channels.length ∧
      List.Forall₂ (fun o c => o.length = c.length)
        (performAudioSeparation exampleWindow (str ("dog")) (AudioBuffer.mk 2 1 [[1]])).channels
        (AudioBuffer.mk 2 1 [[1]]).channels) ∧
    ((extractAudioByFrequency exampleWindow (str ("dog")) (AudioBuffer.mk 2 1 [[1]])).channels.length =
        (AudioBuffer.mk 2 1 [[1]]).channels.length ∧
      List.Forall₂ (fun o c => o.length = c.length)
        (extractAudioByFrequency exampleWindow (str ("dog")) (AudioBuffer.mk 2 1 [[1]])).channels
        (AudioBuffer.mk 2 1 [[1]]).channels) :=
  ⟨by decide,
   (claim2_shape_preserved exampleWindow (str ("dog")) (AudioBuffer.mk 2 1 [[1]])
      (by decide)).1,
   (claim2_shape_preserved exampleWindow (str ("dog")) (AudioBuffer.mk 2 1 [[1]])
      (by decide)).2⟩

/-- ASCII bytes of "RIFF". -/
def riffBytes : List ℕ := [82, 73, 70, 70]

/-- ASCII bytes of "WAVE". -/
def waveBytes : List ℕ := [87, 65, 86, 69]

/-- ASCII bytes of "fmt " (with trailing space). -/
def fmtChunkBytes : List ℕ := [102, 109, 116, 32]

/-- ASCII bytes of "data". -/
def dataChunkBytes : List ℕ := [100, 97, 116, 97]

/-- Little-endian bytes of a 16-bit value (DataView.setUint16 keeps the
two low bytes). -/
def uint16LE (v : ℕ) : List ℕ := [v % 256, v / 256 % 256]

/-- Little-endian bytes of a 32-bit value (DataView.setUint32 keeps the
four low bytes). -/
def uint32LE (v : ℕ) : List ℕ :=
  [v % 256, v / 256 % 256, v / 65536 % 256, v / 16777216 % 256]

/-- Two's-complement little-endian bytes of a 16-bit signed value, as
stored by DataView.setInt16. -/
def int16LE (n : ℤ) : List ℕ := uint16LE ((n % 65536).toNat)

/-- The clamp `Math.max(-1, Math.min(1, sample))`. -/
def clampQ (s : ℚ) : ℚ := max (-1) (min 1 s)

/-- Truncation toward zero: the integer conversion applied by
DataView.setInt16 (ECMAScript ToInt16 truncates the fractional part). -/
def truncTowardZero (q : ℚ) : ℤ := q.num.tdiv (q.den : ℤ)

/-- The two stored bytes of one sample: clamp to [-1, 1], scale by 32767,
truncate toward zero, store as little-endian int16. -/
def sampleBytes (s : ℚ) : List ℕ := int16LE (truncTowardZero (clampQ s * 32767))

/-- Consecutive byte writes into the buffer (DataView writes; out-of-range
positions are unchanged). -/
def writeBytes : List ℕ → ℕ → List ℕ → List ℕ
  | buf, _, [] => buf
  | buf, off, b :: rest => writeBytes (buf.set off b) (off + 1) rest

/-- The sample write loop of the encoder: two bytes per sample, advancing
the offset by 2. -/
def writeSamples : List ℕ → ℕ → List ℚ → List ℕ
  | buf, _, [] => buf
  | buf, off, s :: rest => writeSamples (writeBytes buf off (sampleBytes s)) (off + 2) rest

/-- The WAV encoder `audioBufferToBlob` of the source: allocate a
zero-filled buffer of 44 + 2·N bytes and perform the header and data
writes of the source in order (first channel only). -/
def audioBufferToBlob (sampleRate : ℕ) (ch0 : List ℚ) : List ℕ :=
  let len := ch0.length
  let b0 := List.replicate (44 + len * 2) 0
  let b1 := writeBytes b0 0 riffBytes
  let b2 := writeBytes b1 4 (uint32LE (36 + len * 2))
  let b3 := writeBytes b2 8 waveBytes
  let b4 := writeBytes b3 12 fmtChunkBytes
  let b5 := writeBytes b4 16 (uint32LE 16)
  let b6 := writeBytes b5 20 (uint16LE 1)
  let b7 := writeBytes b6 22 (uint16LE 1)
  let b8 := writeBytes b7 24 (uint32LE sampleRate)
  let b9 := writeBytes b8 28 (uint32LE (sampleRate * 2))
  let b10 := writeBytes b9 32 (uint16LE 2)
  let b11 := writeBytes b10 34 (uint16LE 16)
  let b12 := writeBytes b11 36 dataChunkBytes
  let b13 := writeBytes b12 40 (uint32LE (len * 2))
  writeSamples b13 44 ch0

/-- The 44 header bytes the claim specifies, as a direct concatenation. -/
def headerBytes (sampleRate len : ℕ) : List ℕ :=
  riffBytes ++ uint32LE (36 + len * 2) ++ waveBytes ++ fmtChunkBytes ++
  uint32LE 16 ++ uint16LE 1 ++ uint16LE 1 ++ uint32LE sampleRate ++
  uint32LE (sampleRate * 2) ++ uint16LE 2 ++ uint16LE 16 ++ dataChunkBytes ++
  uint32LE (len * 2)

/-- Rounding to the nearest integer (floor of q + 1/2). -/
def roundNearest (q : ℚ) : ℤ := (q + 1/2).num.fdiv ((q + 1/2).den : ℤ)

/-- Modelled from the spec: the per-sample bytes the claim describes, with
the sample clamped, scaled by 32767 and rounded toward the NEAREST
integer (the point where the claim and the code differ). -/
def specSampleBytes (s : ℚ) : List ℕ := int16LE (roundNearest (clampQ s * 32767))

/-- Modelled from the spec: the byte stream the claim describes — the
44-byte header followed by round-to-nearest int16 samples. -/
def wavEncodeSpec (sampleRate : ℕ) (ch0 : List ℚ) : List ℕ :=
  headerBytes sampleRate ch0.length ++ (ch0.map specSampleBytes).flatten

theorem set_append_length_head (pre : List ℕ) (b x : ℕ) (l : List ℕ) :
    (pre ++ x :: l).set pre.length b = pre ++ b :: l := by
  induction pre with
  | nil => rfl
  | cons p ps ih => simp [List.set, ih]

theorem writeBytes_pad :
    ∀ (bs pre : List ℕ) (k m off : ℕ), off = pre.length → k = bs.length + m →
      writeBytes (pre ++ List.replicate k 0) off bs = (pre ++ bs) ++ List.replicate m 0 := by
  intro bs
  induction bs with
  | nil =>
    intro pre k m off hoff hk
    simp at hk
    subst hk
    simp [writeBytes]
  | cons b rest ih =>
    intro pre k m off hoff hk
    subst hoff
    have hk2 : k = (rest.length + m) + 1 := by simp at hk; omega
    subst hk2
    show writeBytes ((pre ++ List.replicate (rest.length + m + 1) 0).set pre.length b)
        (pre.length + 1) rest = _
    rw [List.replicate_succ, set_append_length_head]
    have hsplit : pre ++ b :: List.replicate (rest.length + m) 0 =
        (pre ++ [b]) ++ List.replicate (rest.length + m) 0 := by simp
    rw [hsplit, ih (pre ++ [b]) (rest.length + m) m (pre.length + 1) (by simp) rfl]
    simp

theorem writeBytes_pad0 (bs : List ℕ) (k m : ℕ) (hk : k = bs.length + m) :
    writeBytes (List.replicate k 0) 0 bs = bs ++ List.replicate m 0 := by
  have h := writeBytes_pad bs [] k m 0 rfl hk
  simpa using h

theorem sampleBytes_length (s : ℚ) : (sampleBytes s).length = 2 := rfl

theorem writeSamples_pad :
    ∀ (xs : List ℚ) (pre : List ℕ) (off : ℕ), off = pre.length →
      writeSamples (pre ++ List.replicate (xs.length * 2) 0) off xs =
        pre ++ (xs.map sampleBytes).flatten := by
  intro xs
  induction xs with
  | nil =>
    intro pre off hoff
    simp [writeSamples]
  | cons s rest ih =>
    intro pre off hoff
    subst hoff
    show writeSamples (writeBytes (pre ++ List.replicate ((rest.length + 1) * 2) 0)
        pre.length (sampleBytes s)) (pre.length + 2) rest = _
    rw [writeBytes_pad (sampleBytes s) pre ((rest.length + 1) * 2) (rest.length * 2)
      pre.length rfl (by rw [sampleBytes_length]; omega)]
    rw [ih (pre ++ sampleBytes s) (pre.length + 2) (by simp [sampleBytes_length])]
    simp

theorem writeBytes_length :
    ∀ (bs buf : List ℕ) (off : ℕ), (writeBytes buf off bs).length = buf.length := by
  intro bs
  induction bs with
  | nil => intro buf off; rfl
  | cons b rest ih =>
    intro buf off
    show (writeBytes (buf.set off b) (off + 1) rest).length = buf.length
    rw [ih, List.length_set]

theorem writeSamples_length :
    ∀ (xs : List ℚ) (buf : List ℕ) (off : ℕ), (writeSamples buf off xs).length = buf.length := by
  intro xs
  induction xs with
  | nil => intro buf off; rfl
  | cons s rest ih =>
    intro buf off
    show (writeSamples (writeBytes buf off (sampleBytes s)) (off + 2) rest).length = buf.length
    rw [ih, writeBytes_length]

theorem len_riff : riffBytes.length = 4 := rfl

theorem len_wave : waveBytes.length = 4 := rfl

theorem len_fmt : fmtChunkBytes.length = 4 := rfl

theorem len_datachunk : dataChunkBytes.length = 4 := rfl

theorem len_u16 (v : ℕ) : (uint16LE v).length = 2 := rfl

theorem len_u32 (v : ℕ) : (uint32LE v).length = 4 := rfl

/-- Claim C4 (amended): the WAV encoder emits exactly 44 + 2·N bytes: the
RIFF/WAVE header with the claimed little-endian fields (chunk size
36 + dataBytes, PCM format 1, one channel, the sample rate, byte rate
sampleRate × 2, block align 2, 16 bits per sample, dataBytes = N × 2)
followed by N little-endian int16 samples, each clamped to [-1, 1],
scaled by 32767 and truncated toward zero (the DataView.setInt16 integer
conversion) — not rounded to the nearest integer as the claim stated. -/
theorem claim4_layout_truncated (sampleRate : ℕ) (xs : List ℚ) :
    audioBufferToBlob sampleRate xs =
      headerBytes sampleRate xs.length ++ (xs.map sampleBytes).flatten ∧
    (audioBufferToBlob sampleRate xs).length = 44 + xs.length * 2 := by
  constructor
  · unfold audioBufferToBlob
    dsimp only
    rw [writeBytes_pad0 riffBytes (44 + xs.length * 2) (40 + xs.length * 2)
        (by simp only [len_riff, len_wave, len_fmt, len_datachunk, len_u16, len_u32, List.length_append, List.length_cons, List.length_nil] <;> omega)]
    rw [writeBytes_pad (uint32LE (36 + xs.length * 2)) (riffBytes)
        (40 + xs.length * 2) (36 + xs.length * 2) 4
        (by simp only [len_riff, len_wave, len_fmt, len_datachunk, len_u16, len_u32, List.length_append, List.length_cons, List.length_nil])
        (by simp only [len_riff, len_wave, len_fmt, len_datachunk, len_u16, len_u32, List.length_append, List.length_cons, List.length_nil] <;> omega)]
    rw [writeBytes_pad (waveBytes) ((riffBytes ++ uint32LE (36 + xs.length * 2)))
        (36 + xs.length * 2) (32 + xs.length * 2) 8
        (by simp only [len_riff, len_wave, len_fmt, len_datachunk, len_u16, len_u32, List.length_append, List.length_cons, List.length_nil])
        (by simp only [len_riff, len_wave, len_fmt, len_datachunk, len_u16, len_u32, List.length_append, List.length_cons, List.length_nil] <;> omega)]
    rw [writeBytes_pad (fmtChunkBytes) (((riffBytes ++ uint32LE (36 + xs.length * 2)) ++ waveBytes))
        (32 + xs.length * 2) (28 + xs.length * 2) 12
        (by simp only [len_riff, len_wave, len_fmt, len_datachunk, len_u16, len_u32, List.length_append, List.length_cons, List.length_nil])
        (by simp only [len_riff, len_wave, len_fmt, len_datachunk, len_u16, len_u32, List.length_append, List.length_cons, List.length_nil] <;> omega)]
    rw [writeBytes_pad (uint32LE 16) ((((riffBytes ++ uint32LE (36 + xs.length * 2)) ++ waveBytes) ++ fmtChunkBytes))
        (28 + xs.length * 2) (24 + xs.length * 2) 16
        (by simp only [len_riff, len_wave, len_fmt, len_datachunk, len_u16, len_u32, List.length_append, List.length_cons, List.length_nil])
        (by simp only [len_riff, len_wave, len_fmt, len_datachunk, len_u16, len_u32, List.length_append, List.length_cons, List.length_nil] <;> omega)]
    rw [writeBytes_pad (uint16LE 1) (((((riffBytes ++ uint32LE (36 + xs.length * 2)) ++ waveBytes) ++ fmtChunkBytes) ++ uint32LE 16))
        (24 + xs.length * 2) (22 + xs.length * 2) 20
        (by simp only [len_riff, len_wave, len_fmt, len_datachunk, len_u16, len_u32, List.length_append, List.length_cons, List.length_nil])
        (by simp only [len_riff, len_wave, len_fmt, len_datachunk, len_u16, len_u32, List.length_append, List.length_cons, List.length_nil] <;> omega)]
    rw [writeBytes_pad (uint16LE 1) ((((((riffBytes ++ uint32LE (36 + xs.length * 2)) ++ waveBytes) ++ fmtChunkBytes) ++ uint32LE 16) ++ uint16LE 1))
        (22 + xs.length * 2) (20 + xs.length * 2) 22
        (by simp only [len_riff, len_wave, len_fmt, len_datachunk, len_u16, len_u32, List.length_append, List.length_cons, List.length_nil])
        (by simp only [len_riff, len_wave, len_fmt, len_datachunk, len_u16, len_u32, List.length_append, List.length_cons, List.length_nil] <;> omega)]
    rw [writeBytes_pad (uint32LE sampleRate) (((((((riffBytes ++ uint32LE (36 + xs.length * 2)) ++ waveBytes) ++ fmtChunkBytes) ++ uint32LE 16) ++ uint16LE 1) ++ uint16LE 1))
        (20 + xs.length * 2) (16 + xs.length * 2) 24
        (by simp only [len_riff, len_wave, len_fmt, len_datachunk, len_u16, len_u32, List.length_append, List.length_cons, List.length_nil])
        (by simp only [len_riff, len_wave, len_fmt, len_datachunk, len_u16, len_u32, List.length_append, List.length_cons, List.length_nil] <;> omega)]
    rw [writeBytes_pad (uint32LE (sampleRate * 2)) ((((((((riffBytes ++ uint32LE (36 + xs.length * 2)) ++ waveBytes) ++ fmtChunkBytes) ++ uint32LE 16) ++ uint16LE 1) ++ uint16LE 1) ++ uint32LE sampleRate))
        (16 + xs.length * 2) (12 + xs.length * 2) 28
        (by simp only [len_riff, len_wave, len_fmt, len_datachunk, len_u16, len_u32, List.length_append, List.length_cons, List.length_nil])
        (by simp only [len_riff, len_wave, len_fmt, len_datachunk, len_u16, len_u32, List.length_append, List.length_cons, List.length_nil] <;> omega)]
    rw [writeBytes_pad (uint16LE 2) (((((((((riffBytes ++ uint32LE (36 + xs.length * 2)) ++ waveBytes) ++ fmtChunkBytes) ++ uint32LE 16) ++ uint16LE 1) ++ uint16LE 1) ++ uint32LE sampleRate) ++ uint32LE (sampleRate * 2)))
        (12 + xs.length * 2) (10 + xs.length * 2) 32
        (by simp only [len_riff, len_wave, len_fmt, len_datachunk, len_u16, len_u32, List.length_append, List.length_cons, List.length_nil])
        (by simp only [len_riff, len_wave, len_fmt, len_datachunk, len_u16, len_u32, List.length_append, List.length_cons, List.length_nil] <;> omega)]
    rw [writeBytes_pad (uint16LE 16) ((((((((((riffBytes ++ uint32LE (36 + xs.length * 2)) ++ waveBytes) ++ fmtChunkBytes) ++ uint32LE 16) ++ uint16LE 1) ++ uint16LE 1) ++ uint32LE sampleRate) ++ uint32LE (sampleRate * 2)) ++ uint16LE 2))
        (10 + xs.length * 2) (8 + xs.length * 2) 34
        (by simp only [len_riff, len_wave, len_fmt, len_datachunk, len_u16, len_u32, List.length_append, List.length_cons, List.length_nil])
        (by simp only [len_riff, len_wave, len_fmt, len_datachunk, len_u16, len_u32, List.length_append, List.length_cons, List.length_nil] <;> omega)]
    rw [writeBytes_pad (dataChunkBytes) (((((((((((riffBytes ++ uint32LE (36 + xs.length * 2)) ++ waveBytes) ++ fmtChunkBytes) ++ uint32LE 16) ++ uint16LE 1) ++ uint16LE 1) ++ uint32LE sampleRate) ++ uint32LE (sampleRate * 2)) ++ uint16LE 2) ++ uint16LE 16))
        (8 + xs.length * 2) (4 + xs.length * 2) 36
        (by simp only [len_riff, len_wave, len_fmt, len_datachunk, len_u16, len_u32, List.length_append, List.length_cons, List.length_nil])
        (by simp only [len_riff, len_wave, len_fmt, len_datachunk, len_u16, len_u32, List.length_append, List.length_cons, List.length_nil] <;> omega)]
    rw [writeBytes_pad (uint32LE (xs.length * 2)) ((((((((((((riffBytes ++ uint32LE (36 + xs.length * 2)) ++ waveBytes) ++ fmtChunkBytes) ++ uint32LE 16) ++ uint16LE 1) ++ uint16LE 1) ++ uint32LE sampleRate) ++ uint32LE (sampleRate * 2)) ++ uint16LE 2) ++ uint16LE 16) ++ dataChunkBytes))
        (4 + xs.length * 2) (xs.length * 2) 40
        (by simp only [len_riff, len_wave, len_fmt, len_datachunk, len_u16, len_u32, List.length_append, List.length_cons, List.length_nil])
        (by simp only [len_riff, len_wave, len_fmt, len_datachunk, len_u16, len_u32, List.length_append, List.length_cons, List.length_nil] <;> omega)]
    rw [writeSamples_pad xs ((((((((((((riffBytes ++ uint32LE (36 + xs.length * 2)) ++ waveBytes) ++ fmtChunkBytes) ++ uint32LE 16) ++ uint16LE 1) ++ uint16LE 1) ++ uint32LE sampleRate) ++ uint32LE (sampleRate * 2)) ++ uint16LE 2) ++ uint16LE 16) ++ dataChunkBytes) ++ uint32LE (xs.length * 2)) 44
        (by simp only [len_riff, len_wave, len_fmt, len_datachunk, len_u16, len_u32, List.length_append, List.length_cons, List.length_nil])]
    simp [headerBytes, List.append_assoc]
  · unfold audioBufferToBlob
    dsimp only
    simp only [writeSamples_length, writeBytes_length, List.length_replicate]

/-- Counterexample for C4: on the one-sample signal [3/100000] the scaled
sample is 0.98301; the encoder (DataView.setInt16) truncates it to 0
while the claimed round-to-nearest layout stores 1, so byte 44 of the
stream differs from the claim. -/
theorem claim4_counterexample :
    (audioBufferToBlob 8 [3/100000]).getD 44 0 = 0 ∧
    (wavEncodeSpec 8 [3/100000]).getD 44 0 = 1 ∧
    (audioBufferToBlob 8 [3/100000]).getD 44 0 ≠ (wavEncodeSpec 8 [3/100000]).getD 44 0 := by
  with_unfolding_all decide
